import Mathlib

/-!
Shallow embedding of the transfat repository (usb-fatmove.py and
transfat/fatsort.py) together with proofs about its device-resolution,
transfer-planning, extension-filtering and directory-creation logic.

Modelling conventions:
* Python strings (paths, file names, diagnostic messages) are modelled as
  `List Char` (named `PyStr`); `pys` injects Lean string literals.
* The OS boundary is modelled as explicit inputs: the mount table is a list
  of (device, mountpoint) pairs (the parsed output of
  `mount -t vfat | cut -f 1,3 -d ' '`), the filesystem is an oracle
  `PyStr → PathStatus` for the transfer planner and a `FSState` record for
  directory creation, interactive stdin is a list of reply strings, and the
  config object is a total map `String → Int` (`configsettings.getint`).
* Python exceptions that the code can raise are made explicit with an
  error channel (`PyErr` inside `Except` or an `Option PyErr` component);
  `stderr` output is modelled as an accumulated list of messages, and
  plain `stdout` progress prints are elided.
* Python machine behaviour that the code relies on is modelled faithfully:
  `int()` parsing, `list.pop`/negative list indexing, `str.lower`,
  `str.endswith` with a tuple, `list.index` (first occurrence),
  `distutils.util.strtobool`, `os.path` functions (`abspath`, `normpath`,
  `dirname`, `basename`, `join`) and `os.walk` / `os.makedirs`.
-/

deriving instance DecidableEq for Except

namespace Transfat

/-- Python strings, modelled as lists of characters. -/
abbrev PyStr := List Char

/-- Inject a Lean string literal as a `PyStr`. -/
def pys (s : String) : PyStr := s.data

/-- The Python exceptions the embedded code can raise.  `oserror`,
`fileExists` and `notADir` are the `OSError` family (caught by
`except OSError`); `valueError`, `indexError`, `eofError` and
`recursionError` are not `OSError`s. -/
inductive PyErr where
  | valueError
  | indexError
  | eofError
  | oserror
  | fileExists
  | notADir
  | recursionError
deriving DecidableEq, Repr

/-- Which `PyErr`s are `OSError`s (hence caught by `except OSError`). -/
def PyErr.isOSError : PyErr → Bool
  | .oserror => true
  | .fileExists => true
  | .notADir => true
  | _ => false

/-! ## Constants mirrored from the source (`NO`, `YES`, `PROMPT`) -/

/-- Config value `NO` (source line `NO = 0`). -/
def NO : Int := 0

/-- Config value `YES` (source line `YES = 1`). -/
def YES : Int := 1

/-- Config value `PROMPT` (source line `PROMPT = 2`). -/
def PROMPT : Int := 2

/-! ## `fatsortAvailable`

Source (both `usb-fatmove.py` and `transfat/fatsort.py`):
```
fatCheck = subprocess.Popen(["bash", "-c", "type fatsort"], ...)
exitCode = fatCheck.wait()
return bool(exitCode)
```
The external check command is modelled by its exit code. -/

/-- `fatsortAvailable`, given the exit code of `bash -c "type fatsort"`.
Python `bool(exitCode)` is true exactly when the exit code is nonzero. -/
def fatsortAvailable (exitCode : Int) : Bool := exitCode != 0

/-- The driver's availability gate (`usb-fatmove.py` `__main__`):
`if fatsortAvailable(): <proceed> else: <abort>`.  The gate passes
exactly when `fatsortAvailable` returns true. -/
def fatsortGatePasses (exitCode : Int) : Bool := fatsortAvailable exitCode

/-! ## Python `int()` on a reply string

Model of `int(input(...))`: optional surrounding whitespace, an optional
sign, then one or more decimal digits; anything else raises `ValueError`
(modelled as `none`). -/

/-- Parse a nonempty all-digit char list to a natural number. -/
def digitsToNat : List Char → Option Nat
  | [] => none
  | l => l.foldl (fun acc c => match acc with
      | none => none
      | some n => if c.isDigit then some (n * 10 + (c.toNat - '0'.toNat)) else none)
      (some 0)

/-- Model of Python `int(s)` for a reply string. -/
def pyInt (s : String) : Option Int :=
  let t := s.data.dropWhile (fun c => c = ' ')
  let t := (t.reverse.dropWhile (fun c => c = ' ')).reverse
  match t with
  | '-' :: rest => (digitsToNat rest).map (fun n => -(n : Int))
  | '+' :: rest => (digitsToNat rest).map (fun n => (n : Int))
  | rest => (digitsToNat rest).map (fun n => (n : Int))

/-! ## `prompt`

Source:
```
def prompt(query):
    sys.stdout.write("%s [y/n]: " % query)
    val = input().lower()
    try:
        result = distutils.util.strtobool(val)
    except ValueError:
        sys.stdout.write("Please answer with y/n\n")
        return prompt(query)
    return result
```
Interactive stdin is a list of reply strings; `input()` on an exhausted
stdin raises `EOFError`.  The unbounded retry recursion becomes structural
recursion on the reply list. -/

/-- `distutils.util.strtobool` on an (already lowercased) string:
`y/yes/t/true/on/1 ↦ true`, `n/no/f/false/off/0 ↦ false`, else ValueError. -/
def strtobool (v : PyStr) : Option Bool :=
  if v = pys "y" ∨ v = pys "yes" ∨ v = pys "t" ∨ v = pys "true" ∨
     v = pys "on" ∨ v = pys "1" then some true
  else if v = pys "n" ∨ v = pys "no" ∨ v = pys "f" ∨ v = pys "false" ∨
     v = pys "off" ∨ v = pys "0" then some false
  else none

/-- Run `prompt` against a list of stdin replies.  Returns the boolean
answer together with the unconsumed replies, or `none` for `EOFError`
(stdin exhausted while the recursion keeps re-asking). -/
def promptRun : List String → Option (Bool × List String)
  | [] => none
  | r :: rest =>
    match strtobool (r.data.map Char.toLower) with
    | some b => some (b, rest)
    | none => promptRun rest

/-! ## POSIX path functions (`os.path`)

Faithful models of CPython `posixpath.split` / `dirname` / `basename` /
`join` / `normpath` / `abspath` on `PyStr` paths. -/

/-- `str.rstrip('/')`: drop trailing slashes. -/
def rstripSlash (p : PyStr) : PyStr :=
  (p.reverse.dropWhile (fun c => c = '/')).reverse

/-- `posixpath.basename(p)`: the part after the last slash
(`p[p.rfind('/')+1:]`). -/
def pyBasename (p : PyStr) : PyStr :=
  (p.reverse.takeWhile (fun c => c ≠ '/')).reverse

/-- The raw head `p[:i]` of `posixpath.split` (everything up to and
including the last slash). -/
def pySplitHead (p : PyStr) : PyStr :=
  p.take (p.length - (pyBasename p).length)

/-- `posixpath.dirname(p)`: the raw head, with trailing slashes stripped
unless the head is empty or consists only of slashes. -/
def pyDirname (p : PyStr) : PyStr :=
  if pySplitHead p ≠ [] ∧ (pySplitHead p).any (fun c => c ≠ '/') then
    rstripSlash (pySplitHead p)
  else pySplitHead p

/-- Split a path on `'/'` like Python `p.split('/')` (keeping empty
components). -/
def splitSlash : PyStr → List PyStr
  | [] => [[]]
  | '/' :: rest => [] :: splitSlash rest
  | c :: rest =>
    match splitSlash rest with
    | [] => [[c]]
    | h :: t => (c :: h) :: t

/-- The component-processing loop of `posixpath.normpath`. -/
def normComps (slashes : Nat) : List PyStr → List PyStr → List PyStr
  | acc, [] => acc
  | acc, comp :: rest =>
    if comp = [] ∨ comp = pys "." then normComps slashes acc rest
    else if comp ≠ pys ".." ∨ (slashes = 0 ∧ acc = []) ∨
            (acc ≠ [] ∧ acc.getLast? = some (pys "..")) then
      normComps slashes (acc ++ [comp]) rest
    else if acc ≠ [] then normComps slashes acc.dropLast rest
    else normComps slashes acc rest

/-- `posixpath.normpath`. -/
def pyNormpath (p : PyStr) : PyStr :=
  if p = [] then pys "."
  else
    let slashes : Nat :=
      if p.take 1 = pys "/" then
        if p.take 2 = pys "//" ∧ p.take 3 ≠ pys "///" then 2 else 1
      else 0
    let comps := normComps slashes [] (splitSlash p)
    let res := List.replicate slashes '/' ++ List.intercalate (pys "/") comps
    if res = [] then pys "." else res

/-- `posixpath.join(a, b)` for two components. -/
def pyJoin (a b : PyStr) : PyStr :=
  if b.take 1 = pys "/" then b
  else if a = [] ∨ a.getLast? = some '/' then a ++ b
  else a ++ '/' :: b

/-- `posixpath.abspath(p)` with an explicit current working directory. -/
def pyAbspath (cwd p : PyStr) : PyStr :=
  if p.take 1 = pys "/" then pyNormpath p
  else pyNormpath (pyJoin cwd p)

/-! ## `findDeviceLocation`

Source (`usb-fatmove.py` lines 128-219; `transfat/fatsort.py` has the
same function named `findDeviceLocations`).  The shell pipeline
`mount -t vfat | cut -f 1,3 -d ' '` and its parse into
`deviceListSep[i] = [deviceLoc, mountLoc]` are modelled by the mount
table input `table : List (PyStr × PyStr)`; the interactive selection
read by `ans = int(input(...))` is modelled by the `reply` string
(`int()` raising `ValueError` when it does not parse). -/

/-- Python list subscription `l[i]`, including negative-index wraparound;
`none` models `IndexError`. -/
def pyIndex {α : Type} (l : List α) (i : Int) : Option α :=
  if 0 ≤ i then l.get? i.toNat
  else if (-i).toNat ≤ l.length then l.get? (l.length - (-i).toNat) else none

/-- `findDeviceLocation(destination, noninteractive, verbose, quiet)`.
Returns the (device, mountpoint) pair — `('', '')` on failure — together
with the list of stderr messages, or a `PyErr` for an uncaught exception. -/
def findDeviceLocation (table : List (PyStr × PyStr)) (destination : PyStr)
    (cwd : PyStr) (noninteractive verbose quiet : Bool) (reply : String) :
    Except PyErr ((PyStr × PyStr) × List PyStr) :=
  let dest := pyAbspath cwd destination
  if table = [] then .ok (([], []), [])
  else
    match table.find? (fun dm => dm.2.isPrefixOf dest) with
    | some dm => .ok (dm, [])
    | none =>
      if noninteractive then .ok (([], []), [])
      else
        match pyInt reply with
        | none => .error .valueError
        | some ans =>
          if ans = 0 then .ok (([], []), [])
          else if (table.length : Int) < ans then
            .ok (([], []), if quiet then [] else [pys "ERROR: invalid index"])
          else
            match pyIndex table (ans - 1) with
            | some dm => .ok (dm, [])
            | none => .error .indexError

/-! ## `getSourceAndDestinationLists`

Source (`usb-fatmove.py` lines 252-321).  The filesystem is modelled as
an oracle `fsStat : PyStr → PathStatus`: `os.path.isfile` answers
`isFile`, `os.path.isdir` answers `isDir t` carrying the directory tree
below that path (so that `os.walk` can be replayed), and everything else
is `missing`.  `os.walk(source)` is the standard top-down walk yielding
`(root, dirnames, filenames)`; the code uses only `root` and the file
names. -/

mutual

/-- A directory tree: the subdirectories (in `os.walk` enumeration
order) and the plain file names directly inside. -/
inductive Tree where
  | node : SubdirList → List PyStr → Tree

/-- A list of (name, subtree) pairs, as a mutual inductive so that
recursion over it stays structural. -/
inductive SubdirList where
  | nil : SubdirList
  | cons : PyStr → Tree → SubdirList → SubdirList

end

/-- What the OS reports for a path: a regular file, a directory (with
its tree), or nothing usable. -/
inductive PathStatus where
  | isFile : PathStatus
  | isDir : Tree → PathStatus
  | missing : PathStatus

mutual

/-- `os.walk(root)` over a modelled tree: the list of
`(root, filenames)` pairs in top-down order. -/
def walk (r : PyStr) : Tree → List (PyStr × List PyStr)
  | .node subs fs => (r, fs) :: walkSubs r subs

/-- Walk each subdirectory `name` of `r` at path `r + '/' + name`. -/
def walkSubs (r : PyStr) : SubdirList → List (PyStr × List PyStr)
  | .nil => []
  | .cons n t rest => walk (r ++ '/' :: n) t ++ walkSubs r rest

end

/-- The four plan lists plus the accumulated stderr messages. -/
structure ExpandResult where
  sourceDirs : List PyStr
  sourceFiles : List PyStr
  destinationDirs : List PyStr
  destinationFiles : List PyStr
  errs : List PyStr
deriving DecidableEq, Repr

/-- The body of the `for source in sourcePaths` loop for one source
path (already made absolute). -/
def expandOne (destinationPath : PyStr) (fsStat : PyStr → PathStatus)
    (quiet : Bool) (source : PyStr) : ExpandResult :=
  let parentlen := (pyDirname source).length
  match fsStat source with
  | .isFile =>
    ⟨[], [source], [], [destinationPath ++ source.drop parentlen], []⟩
  | .isDir t =>
    let w := walk source t
    ⟨w.map (fun rf => rf.1),
     w.flatMap (fun rf => rf.2.map (fun file => rf.1 ++ '/' :: file)),
     w.map (fun rf => destinationPath ++ rf.1.drop parentlen),
     w.flatMap (fun rf =>
       rf.2.map (fun file => destinationPath ++ rf.1.drop parentlen ++ '/' :: file)),
     []⟩
  | .missing =>
    ⟨[], [], [], [],
     if quiet then [] else [pys "ERROR: '" ++ source ++ pys "' does not exist!"]⟩

/-- Append the lists of a step result onto the accumulator (the `+=`
statements of the loop). -/
def ExpandResult.append (a b : ExpandResult) : ExpandResult :=
  ⟨a.sourceDirs ++ b.sourceDirs, a.sourceFiles ++ b.sourceFiles,
   a.destinationDirs ++ b.destinationDirs,
   a.destinationFiles ++ b.destinationFiles, a.errs ++ b.errs⟩

/-- `getSourceAndDestinationLists(sourceLocs, destinationLoc, verbose,
quiet)`: make all paths absolute, then partition each source into the
four plan lists. -/
def getSourceAndDestinationLists (sourceLocs : List PyStr)
    (destinationLoc : PyStr) (cwd : PyStr) (fsStat : PyStr → PathStatus)
    (quiet : Bool) : ExpandResult :=
  let sourcePaths := sourceLocs.map (pyAbspath cwd)
  let destinationPath := pyAbspath cwd destinationLoc
  sourcePaths.foldl
    (fun acc source => acc.append (expandOne destinationPath fsStat quiet source))
    ⟨[], [], [], [], []⟩

/-! ## `filterOutExtensions`

Source (`usb-fatmove.py` lines 324-405).  The config object is the total
map `cfg : String → Int` (`configsettings.getint`); interactive stdin is
the reply list threaded through `promptRun`.  NOTE (faithful to the
source): `imageOption` is loaded from config key `'RemoveCue'`
(line 335), not from a remove-images key, and `m3uOption` from
`'RemoveM4U'`. -/

/-- `audioExt = ('.flac', '.ogg', '.mp4', '.alac', '.aac', '.mp3')`. -/
def audioExt : List PyStr :=
  [pys ".flac", pys ".ogg", pys ".mp4", pys ".alac", pys ".aac", pys ".mp3"]

/-- `imageExt = ('.jpg', '.jpeg', '.bmp', '.png', '.gif')`. -/
def imageExt : List PyStr :=
  [pys ".jpg", pys ".jpeg", pys ".bmp", pys ".png", pys ".gif"]

/-- `logExt = ('.log',)`. -/
def logExt : List PyStr := [pys ".log"]

/-- `cueExt = ('.cue',)`. -/
def cueExt : List PyStr := [pys ".cue"]

/-- `m3uExt = ('.m3u',)`. -/
def m3uExt : List PyStr := [pys ".m3u"]

/-- `imageOption = configsettings.getint('RemoveCue')` — the source
reads the cue-sheet key here, not a remove-images key. -/
def imageOption (cfg : String → Int) : Int := cfg "RemoveCue"

/-- `logOption = configsettings.getint('RemoveLog')`. -/
def logOption (cfg : String → Int) : Int := cfg "RemoveLog"

/-- `cueOption = configsettings.getint('RemoveCue')`. -/
def cueOption (cfg : String → Int) : Int := cfg "RemoveCue"

/-- `m3uOption = configsettings.getint('RemoveM4U')`. -/
def m3uOption (cfg : String → Int) : Int := cfg "RemoveM4U"

/-- `otherOption = configsettings.getint('RemoveOtherFiletypes')`. -/
def otherOption (cfg : String → Int) : Int := cfg "RemoveOtherFiletypes"

/-- The `extensionList` pairing each extension tuple with its option. -/
def extensionList (cfg : String → Int) : List (List PyStr × Int) :=
  [(imageExt, imageOption cfg), (logExt, logOption cfg),
   (cueExt, cueOption cfg), (m3uExt, m3uOption cfg)]

/-- `nonAudioExt`: the concatenation of all non-audio extension tuples. -/
def nonAudioExt : List PyStr := imageExt ++ logExt ++ cueExt ++ m3uExt

/-- `str.lower()`. -/
def lowerP (f : PyStr) : PyStr := f.map Char.toLower

/-- `s.endswith(tuple)`: true when some extension is a suffix of `s`. -/
def endswithAny (fl : PyStr) (exts : List PyStr) : Bool :=
  exts.any (fun e => e.isSuffixOf fl)

/-- The inner `for ext, removeOption in extensionList` loop for one
file: `fl` is the lowercased name, `idx` is `sourceFileList.index(file)`.
Returns the entries appended to `indexList` and the remaining replies.
After appending an index the loop continues with the next extension pair
(the source has no `break` in that branch). -/
def scanExts (fl : PyStr) (idx : Nat) (noninteractive : Bool) :
    List (List PyStr × Int) → List String → Except PyErr (List Nat × List String)
  | [], replies => .ok ([], replies)
  | (exts, removeOption) :: rest, replies =>
    if endswithAny fl exts then
      if removeOption = PROMPT then
        if noninteractive then .ok ([], replies)
        else
          match promptRun replies with
          | none => .error .eofError
          | some (true, r1) => .ok ([], r1)
          | some (false, r1) =>
            match scanExts fl idx noninteractive rest r1 with
            | .error e => .error e
            | .ok (l, r2) => .ok (idx :: l, r2)
      else if removeOption = NO then .ok ([], replies)
      else
        match scanExts fl idx noninteractive rest replies with
        | .error e => .error e
        | .ok (l, r2) => .ok (idx :: l, r2)
    else scanExts fl idx noninteractive rest replies

/-- The outer `for file in sourceFileList` scan building `indexList`;
`full` is the unmodified `sourceFileList` that `.index(file)` searches. -/
def scanFiles (cfg : String → Int) (noninteractive : Bool) (full : List PyStr) :
    List PyStr → List String → Except PyErr (List Nat × List String)
  | [], replies => .ok ([], replies)
  | file :: rest, replies =>
    if endswithAny (lowerP file) audioExt then
      scanFiles cfg noninteractive full rest replies
    else if endswithAny (lowerP file) nonAudioExt then
      match scanExts (lowerP file) (full.indexOf file) noninteractive
          (extensionList cfg) replies with
      | .error e => .error e
      | .ok (idxs1, r1) =>
        match scanFiles cfg noninteractive full rest r1 with
        | .error e => .error e
        | .ok (idxs2, r2) => .ok (idxs1 ++ idxs2, r2)
    else
      if otherOption cfg = PROMPT then
        if noninteractive then scanFiles cfg noninteractive full rest replies
        else
          match promptRun replies with
          | none => .error .eofError
          | some (true, r1) => scanFiles cfg noninteractive full rest r1
          | some (false, r1) =>
            match scanFiles cfg noninteractive full rest r1 with
            | .error e => .error e
            | .ok (idxs2, r2) => .ok (full.indexOf file :: idxs2, r2)
      else if otherOption cfg = NO then
        scanFiles cfg noninteractive full rest replies
      else
        match scanFiles cfg noninteractive full rest replies with
        | .error e => .error e
        | .ok (idxs2, r2) => .ok (full.indexOf file :: idxs2, r2)

/-- `list.pop(i)` for a non-negative index; `none` models `IndexError`. -/
def popAt {α : Type} (l : List α) (i : Nat) : Option (List α) :=
  if i < l.length then some (l.eraseIdx i) else none

/-- The `for index in indexList[::-1]` removal loop: pop the same index
from the source list and then from the destination list. -/
def removeIndices : List PyStr → List PyStr → List Nat →
    Except PyErr (List PyStr × List PyStr)
  | s, d, [] => .ok (s, d)
  | s, d, i :: rest =>
    match popAt s i with
    | none => .error .indexError
    | some s1 =>
      match popAt d i with
      | none => .error .indexError
      | some d1 => removeIndices s1 d1 rest

/-- `filterOutExtensions(sourceFileList, destinationFileList,
configsettings, noninteractive)`: the in-place mutation is modelled by
returning the two filtered lists, plus the unconsumed stdin replies. -/
def filterOutExtensions (src dst : List PyStr) (cfg : String → Int)
    (noninteractive : Bool) (replies : List String) :
    Except PyErr ((List PyStr × List PyStr) × List String) :=
  match scanFiles cfg noninteractive src src replies with
  | .error e => .error e
  | .ok (idxs, r1) =>
    match removeIndices src dst idxs.reverse with
    | .error e => .error e
    | .ok (s1, d1) => .ok ((s1, d1), r1)

/-! ## `createDirsAndParents`

Source (`usb-fatmove.py` lines 408-469).  The filesystem is a mutable
state: two lists of paths, the existing directories and the existing
regular files.  `os.mkdir` / `os.makedirs` / `os.remove` are modelled on
that state following POSIX/CPython semantics; the per-target `try`
block's `except OSError` catches exactly the `OSError` family. -/

/-- The filesystem state seen by directory creation. -/
structure FSState where
  dirs : List PyStr
  files : List PyStr
deriving DecidableEq, Repr

/-- `os.path.isdir`. -/
def isdir (fs : FSState) (p : PyStr) : Bool := fs.dirs.contains p

/-- `os.path.isfile`. -/
def isfile (fs : FSState) (p : PyStr) : Bool := fs.files.contains p

/-- `os.path.exists`. -/
def pathExists (fs : FSState) (p : PyStr) : Bool := isdir fs p || isfile fs p

/-- `os.remove` (only called by the code after an `isfile` check). -/
def pyRemove (fs : FSState) (p : PyStr) : FSState :=
  { fs with files := fs.files.erase p }

/-- `os.mkdir`: `FileExistsError` if the path exists; `NotADirectoryError`
or `FileNotFoundError` (both `OSError`s) unless the parent is an
existing directory. -/
def mkdir (fs : FSState) (name : PyStr) : FSState × Option PyErr :=
  if pathExists fs name then (fs, some .fileExists)
  else if isdir fs (pyDirname name) then
    ({ fs with dirs := fs.dirs ++ [name] }, none)
  else (fs, some (if isfile fs (pyDirname name) then .notADir else .oserror))

/-- The `head, tail = path.split(name); if not tail: head, tail =
path.split(head)` preamble of CPython `os.makedirs`. -/
def splitHeadTail (name : PyStr) : PyStr × PyStr :=
  if pyBasename name = [] then
    (pyDirname (pyDirname name), pyBasename (pyDirname name))
  else (pyDirname name, pyBasename name)

/-- CPython `os.makedirs(name)`: recursively create the missing head
(ignoring a `FileExistsError` from the recursion), then `mkdir(name)`.
The recursion is on the strictly shorter head; `fuel` bounds its depth
and `some .recursionError` at fuel 0 is unreachable whenever
`fuel > name.length` (`makedirs_err_isOSError`). -/
def makedirs : Nat → FSState → PyStr → FSState × Option PyErr
  | 0, fs, _ => (fs, some .recursionError)
  | fuel + 1, fs, name =>
    if (splitHeadTail name).1 ≠ [] ∧ (splitHeadTail name).2 ≠ [] ∧
        pathExists fs (splitHeadTail name).1 = false then
      match makedirs fuel fs (splitHeadTail name).1 with
      | (fs1, some .fileExists) => mkdir fs1 name
      | (fs1, some e) => (fs1, some e)
      | (fs1, none) => mkdir fs1 name
    else mkdir fs name

/-- One iteration of the `for targetDir in destinationDirsList` loop
(the body of the `try` block): returns the new filesystem state, the
remaining stdin replies, the stderr messages printed, and the exception
raised (if any). -/
def processTarget (overwrite : Int) (quiet : Bool) (fs : FSState)
    (replies : List String) (t : PyStr) :
    FSState × List String × List PyStr × Option PyErr :=
  if isdir fs t then (fs, replies, [], none)
  else if isfile fs t then
    if overwrite = YES then
      match makedirs (t.length + 1) (pyRemove fs t) t with
      | (fs1, e) => (fs1, replies, [], e)
    else if overwrite = PROMPT then
      match promptRun replies with
      | none => (fs, [], [], some .eofError)
      | some (true, r1) =>
        match makedirs (t.length + 1) (pyRemove fs t) t with
        | (fs1, e) => (fs1, r1, [], e)
      | some (false, r1) =>
        (fs, r1,
         if quiet then []
         else [pys "ERROR: attempting to overwrite a file with a directory!"],
         some .oserror)
    else
      (fs, replies,
       if quiet then []
       else [pys "ERROR: attempting to overwrite a file with a directory!"],
       some .oserror)
  else
    match makedirs (t.length + 1) fs t with
    | (fs1, e) => (fs1, replies, [], e)

/-- The target loop with its `except OSError` handler: an `OSError` is
reported (unless quiet) and the loop continues with the next target;
any other exception (e.g. `EOFError` from `input()` inside `prompt`)
propagates out. -/
def createDirsLoop (overwrite : Int) (quiet : Bool) :
    List PyStr → FSState → List String → List PyStr →
    Except PyErr (FSState × List PyStr × List String)
  | [], fs, replies, msgs => .ok (fs, msgs, replies)
  | t :: rest, fs, replies, msgs =>
    match processTarget overwrite quiet fs replies t with
    | (fs1, r1, m1, none) =>
      createDirsLoop overwrite quiet rest fs1 r1 (msgs ++ m1)
    | (fs1, r1, m1, some e) =>
      if e.isOSError then
        createDirsLoop overwrite quiet rest fs1 r1
          (msgs ++ m1 ++
            (if quiet then []
             else [pys "ERROR: Failed to create " ++ t ++ pys "!"]))
      else .error e

/-- `createDirsAndParents(destinationDirsList, configsettings,
noninteractive, verbose, quiet)`: read the overwrite setting, demote
`PROMPT` to `NO` in non-interactive mode, then run the target loop.
Returns the final filesystem state, stderr messages and remaining
replies, or the uncaught exception. -/
def createDirsAndParents (destinationDirsList : List PyStr)
    (cfg : String → Int) (noninteractive quiet : Bool)
    (replies : List String) (fs : FSState) :
    Except PyErr (FSState × List PyStr × List String) :=
  createDirsLoop
    (if noninteractive = true ∧ cfg "OverwriteDestinationFiles" = PROMPT then NO
     else cfg "OverwriteDestinationFiles")
    quiet destinationDirsList fs replies []

/-- Verification predicate: at most one extension group in the list
matches the (lowercased) file name `fl`. -/
def AtMostOneMatch (fl : PyStr) : List (List PyStr × Int) → Prop
  | [] => True
  | g :: rest =>
    (endswithAny fl g.1 = true → ∀ g2 ∈ rest, endswithAny fl g2.1 = false) ∧
    AtMostOneMatch fl rest

/-! ## Generic list lemmas used by the proofs -/

theorem length_dropWhile_le' {α : Type} (p : α → Bool) (l : List α) :
    (l.dropWhile p).length ≤ l.length := by
  induction l with
  | nil => simp
  | cons a t ih =>
    rw [List.dropWhile_cons]
    by_cases h : p a = true
    · simp only [h, if_true]; exact Nat.le_succ_of_le ih
    · simp [h]

theorem length_takeWhile_le' {α : Type} (p : α → Bool) (l : List α) :
    (l.takeWhile p).length ≤ l.length := by
  induction l with
  | nil => simp
  | cons a t ih =>
    rw [List.takeWhile_cons]
    by_cases h : p a = true
    · simpa [h] using ih
    · simp [h]

theorem takeWhile_append_cons {α : Type} (p : α → Bool) (l : List α) (x : α)
    (r : List α) (hl : ∀ a ∈ l, p a = true) (hx : p x = false) :
    (l ++ x :: r).takeWhile p = l := by
  induction l with
  | nil => simp [List.takeWhile_cons, hx]
  | cons a t ih =>
    have ha : p a = true := hl a (List.mem_cons_self a t)
    simp only [List.cons_append, List.takeWhile_cons, ha, if_true]
    rw [ih (fun b hb => hl b (List.mem_cons_of_mem a hb))]

theorem dropWhile_head_false {α : Type} (p : α → Bool) (l : List α) (c : α)
    (hc : l.head? = some c) (hpc : p c = false) : l.dropWhile p = l := by
  cases l with
  | nil => simp at hc
  | cons a t =>
    have : a = c := by simpa using hc
    subst this
    simp [List.dropWhile_cons, hpc]

theorem length_flatMap_congr {α β γ : Type} (l : List α) (F : α → List β)
    (G : α → List γ) (h : ∀ a ∈ l, (F a).length = (G a).length) :
    (l.flatMap F).length = (l.flatMap G).length := by
  induction l with
  | nil => simp
  | cons a t ih =>
    simp only [List.flatMap_cons, List.length_append]
    rw [h a (List.mem_cons_self a t),
        ih (fun b hb => h b (List.mem_cons_of_mem a hb))]

theorem zip_flatMap_pointwise {α β : Type} (P : β × β → Prop) (l : List α)
    (F G : α → List β) (hlen : ∀ a ∈ l, (F a).length = (G a).length)
    (hP : ∀ a ∈ l, ∀ pr ∈ (F a).zip (G a), P pr) :
    ∀ pr ∈ (l.flatMap F).zip (l.flatMap G), P pr := by
  induction l with
  | nil => simp
  | cons a t ih =>
    intro pr hpr
    simp only [List.flatMap_cons] at hpr
    rw [List.zip_append (hlen a (List.mem_cons_self a t))] at hpr
    rcases List.mem_append.mp hpr with h | h
    · exact hP a (List.mem_cons_self a t) pr h
    · exact ih (fun b hb => hlen b (List.mem_cons_of_mem a hb))
        (fun b hb => hP b (List.mem_cons_of_mem a hb)) pr h

/-! ## Lemmas about the path functions -/

theorem rstripSlash_length_le (p : PyStr) : (rstripSlash p).length ≤ p.length := by
  unfold rstripSlash
  calc (p.reverse.dropWhile (fun c => c = '/')).reverse.length
      = (p.reverse.dropWhile (fun c => c = '/')).length := List.length_reverse _
    _ ≤ p.reverse.length := length_dropWhile_le' _ _
    _ = p.length := List.length_reverse _

theorem pyBasename_length_le (p : PyStr) : (pyBasename p).length ≤ p.length := by
  unfold pyBasename
  calc (p.reverse.takeWhile (fun c => c ≠ '/')).reverse.length
      = (p.reverse.takeWhile (fun c => c ≠ '/')).length := List.length_reverse _
    _ ≤ p.reverse.length := length_takeWhile_le' _ _
    _ = p.length := List.length_reverse _

theorem pySplitHead_length_le (p : PyStr) : (pySplitHead p).length ≤ p.length := by
  unfold pySplitHead
  simpa using List.length_take_le _ _

theorem pyDirname_length_le (p : PyStr) : (pyDirname p).length ≤ p.length := by
  unfold pyDirname
  split
  · exact le_trans (rstripSlash_length_le _) (pySplitHead_length_le p)
  · exact pySplitHead_length_le p

theorem pySplitHead_length_eq (p : PyStr) :
    (pySplitHead p).length = p.length - (pyBasename p).length := by
  unfold pySplitHead
  rw [List.length_take]
  exact Nat.min_eq_left (Nat.sub_le _ _)

theorem pyDirname_length_le_sub (p : PyStr) :
    (pyDirname p).length ≤ p.length - (pyBasename p).length := by
  unfold pyDirname
  split
  · exact le_trans (rstripSlash_length_le _) (le_of_eq (pySplitHead_length_eq p))
  · exact le_of_eq (pySplitHead_length_eq p)

theorem pyDirname_length_lt (p : PyStr) (h : pyBasename p ≠ []) :
    (pyDirname p).length < p.length := by
  have h1 := pyDirname_length_le_sub p
  have h2 := pyBasename_length_le p
  have h3 : 0 < (pyBasename p).length := List.length_pos.mpr h
  have h4 : 0 < p.length := lt_of_lt_of_le h3 h2
  omega

theorem pyBasename_append (p b : PyStr) (hbs : '/' ∉ b) :
    pyBasename (p ++ '/' :: b) = b := by
  unfold pyBasename
  rw [List.reverse_append, List.reverse_cons]
  rw [List.append_assoc, List.singleton_append]
  rw [takeWhile_append_cons _ b.reverse '/' p.reverse
      (by intro a ha; simp only [decide_eq_true_eq]
          intro hcon; subst hcon; exact hbs (List.mem_reverse.mp ha))
      (by simp)]
  exact List.reverse_reverse b

theorem pySplitHead_append (p b : PyStr) (hbs : '/' ∉ b) :
    pySplitHead (p ++ '/' :: b) = p ++ ['/'] := by
  unfold pySplitHead
  rw [pyBasename_append p b hbs]
  have hlen : (p ++ '/' :: b).length - b.length = (p ++ ['/']).length := by
    simp; omega
  rw [hlen]
  have : p ++ '/' :: b = (p ++ ['/']) ++ b := by simp
  rw [this, List.take_left]

theorem rstripSlash_append_slash (p : PyStr) (c : Char) (hp : p.getLast? = some c)
    (hc : c ≠ '/') : rstripSlash (p ++ ['/']) = p := by
  unfold rstripSlash
  rw [List.reverse_append]
  simp only [List.reverse_cons, List.reverse_nil, List.nil_append,
    List.singleton_append]
  rw [List.dropWhile_cons]
  simp only [decide_eq_true_eq, if_pos rfl]
  rw [dropWhile_head_false _ p.reverse c (by rw [List.head?_reverse]; exact hp)
      (by simp [hc])]
  exact List.reverse_reverse p

theorem pyDirname_append (p b : PyStr) (hbs : '/' ∉ b) (hp : p ≠ [])
    (hpe : p.getLast? ≠ some '/') : pyDirname (p ++ '/' :: b) = p := by
  have hc : ∃ c, p.getLast? = some c := by
    cases hlast : p.getLast? with
    | none => exact absurd (List.getLast?_eq_none_iff.mp hlast) hp
    | some c => exact ⟨c, rfl⟩
  obtain ⟨c, hcl⟩ := hc
  have hcne : c ≠ '/' := by intro hcon; subst hcon; exact hpe hcl
  unfold pyDirname
  rw [pySplitHead_append p b hbs]
  rw [if_pos]
  · exact rstripSlash_append_slash p c hcl hcne
  · constructor
    · simp
    · rw [List.any_eq_true]
      exact ⟨c, List.mem_append_left _ (List.mem_of_mem_getLast? hcl), by simp [hcne]⟩

theorem pyBasename_root (b : PyStr) (hbs : '/' ∉ b) :
    pyBasename ('/' :: b) = b := pyBasename_append [] b hbs

theorem pyDirname_root (b : PyStr) (hbs : '/' ∉ b) :
    pyDirname ('/' :: b) = pys "/" := by
  unfold pyDirname
  have hsh : pySplitHead ('/' :: b) = ['/'] := pySplitHead_append [] b hbs
  rw [hsh]
  simp [pys]

/-! ## Walk lemmas -/

mutual

theorem walk_len_le (r : PyStr) (t : Tree) :
    ∀ x ∈ walk r t, r.length ≤ x.1.length := by
  match t with
  | .node subs fs =>
    intro x hx
    rw [walk] at hx
    rcases List.mem_cons.mp hx with h | h
    · subst h; exact le_refl _
    · exact walkSubs_len_le r subs x h

theorem walkSubs_len_le (r : PyStr) (sl : SubdirList) :
    ∀ x ∈ walkSubs r sl, r.length ≤ x.1.length := by
  match sl with
  | .nil =>
    intro x hx
    rw [walkSubs] at hx
    exact absurd hx (List.not_mem_nil x)
  | .cons n t rest =>
    intro x hx
    rw [walkSubs] at hx
    rcases List.mem_append.mp hx with h | h
    · have := walk_len_le (r ++ '/' :: n) t x h
      simp only [List.length_append] at this
      omega
    · exact walkSubs_len_le r rest x h

end

/-! ## Expansion lemmas -/

theorem expandOne_file (dp : PyStr) (fsStat : PyStr → PathStatus) (quiet : Bool)
    (source : PyStr) (h : fsStat source = .isFile) :
    expandOne dp fsStat quiet source =
      ⟨[], [source], [], [dp ++ source.drop (pyDirname source).length], []⟩ := by
  unfold expandOne
  rw [h]

theorem expandOne_lengths (dp : PyStr) (fsStat : PyStr → PathStatus)
    (quiet : Bool) (source : PyStr) :
    (expandOne dp fsStat quiet source).sourceFiles.length =
      (expandOne dp fsStat quiet source).destinationFiles.length ∧
    (expandOne dp fsStat quiet source).sourceDirs.length =
      (expandOne dp fsStat quiet source).destinationDirs.length := by
  unfold expandOne
  match hst : fsStat source with
  | .isFile => simp
  | .missing => simp
  | .isDir t =>
    simp only
    constructor
    · exact length_flatMap_congr _ _ _ (fun a _ => by simp)
    · simp

theorem expand_fold_lengths (paths : List PyStr) (dp : PyStr)
    (fsStat : PyStr → PathStatus) (quiet : Bool) (acc : ExpandResult)
    (h1 : acc.sourceFiles.length = acc.destinationFiles.length)
    (h2 : acc.sourceDirs.length = acc.destinationDirs.length) :
    (paths.foldl (fun a source => a.append (expandOne dp fsStat quiet source))
        acc).sourceFiles.length =
      (paths.foldl (fun a source => a.append (expandOne dp fsStat quiet source))
        acc).destinationFiles.length ∧
    (paths.foldl (fun a source => a.append (expandOne dp fsStat quiet source))
        acc).sourceDirs.length =
      (paths.foldl (fun a source => a.append (expandOne dp fsStat quiet source))
        acc).destinationDirs.length := by
  induction paths generalizing acc with
  | nil => exact ⟨h1, h2⟩
  | cons a t ih =>
    simp only [List.foldl_cons]
    obtain ⟨e1, e2⟩ := expandOne_lengths dp fsStat quiet a
    exact ih _ (by simp [ExpandResult.append, h1, e1])
      (by simp [ExpandResult.append, h2, e2])

theorem expand_single (f d cwd : PyStr) (fsStat : PyStr → PathStatus)
    (quiet : Bool) (hf : pyAbspath cwd f = f) (hd : pyAbspath cwd d = d) :
    getSourceAndDestinationLists [f] d cwd fsStat quiet =
      expandOne d fsStat quiet f := by
  unfold getSourceAndDestinationLists
  simp only [List.map_cons, List.map_nil, List.foldl_cons, List.foldl_nil, hf, hd]
  simp [ExpandResult.append]

theorem expand_lengths (sources : List PyStr) (d cwd : PyStr)
    (fsStat : PyStr → PathStatus) (quiet : Bool) :
    (getSourceAndDestinationLists sources d cwd fsStat quiet).sourceFiles.length =
      (getSourceAndDestinationLists sources d cwd fsStat quiet).destinationFiles.length ∧
    (getSourceAndDestinationLists sources d cwd fsStat quiet).sourceDirs.length =
      (getSourceAndDestinationLists sources d cwd fsStat quiet).destinationDirs.length := by
  unfold getSourceAndDestinationLists
  exact expand_fold_lengths _ _ _ _ _ rfl rfl

/-! ## Filter lemmas

The removal loop `for index in indexList[::-1]: pop(index)` is valid —
it never raises `IndexError` — because every recorded index is a
first-occurrence index, hence bounded by the position of the occurrence
that produced it, and those positions are strictly increasing.  The
lemmas below establish exactly that. -/

theorem popAt_of_lt {α : Type} (l : List α) (i : Nat) (h : i < l.length) :
    popAt l i = some (l.eraseIdx i) := by
  unfold popAt
  rw [if_pos h]

theorem popAt_some {α : Type} (l : List α) (i : Nat) (l2 : List α)
    (h : popAt l i = some l2) : i < l.length ∧ l2.length = l.length - 1 := by
  unfold popAt at h
  split at h
  · next hlt =>
    injection h with h2
    subst h2
    exact ⟨hlt, by rw [List.length_eraseIdx, if_pos hlt]⟩
  · cases h

theorem removeIndices_lengths (idxs : List Nat) :
    ∀ (s d s1 d1 : List PyStr), s.length = d.length →
      removeIndices s d idxs = .ok (s1, d1) → s1.length = d1.length := by
  induction idxs with
  | nil =>
    intro s d s1 d1 h hok
    simp only [removeIndices, Except.ok.injEq, Prod.mk.injEq] at hok
    obtain ⟨h1, h2⟩ := hok
    rw [← h1, ← h2]
    exact h
  | cons i rest ih =>
    intro s d s1 d1 h hok
    unfold removeIndices at hok
    cases hps : popAt s i with
    | none => rw [hps] at hok; cases hok
    | some s2 =>
      rw [hps] at hok
      cases hpd : popAt d i with
      | none => rw [hpd] at hok; cases hok
      | some d2 =>
        rw [hpd] at hok
        obtain ⟨hlts, hlens⟩ := popAt_some s i s2 hps
        obtain ⟨hltd, hlend⟩ := popAt_some d i d2 hpd
        exact ih s2 d2 s1 d1 (by omega) hok

theorem removeIndices_ok (ridxs rps : List Nat)
    (hf : List.Forall₂ (· ≤ ·) ridxs rps) :
    ∀ (s d : List PyStr), rps.Pairwise (· > ·) →
      (∀ p ∈ rps, p < s.length) → s.length = d.length →
      ∃ out, removeIndices s d ridxs = .ok out := by
  induction hf with
  | nil => intro s d _ _ _; exact ⟨(s, d), rfl⟩
  | @cons r p rl pl hrp _htail ih =>
    intro s d hpw hbound hlen
    have hrs : r < s.length := lt_of_le_of_lt hrp (hbound p (List.mem_cons_self p pl))
    have hrd : r < d.length := by omega
    have hnext := ih (s.eraseIdx r) (d.eraseIdx r) (List.pairwise_cons.mp hpw).2
      (by
        intro q hq
        have hqp : p > q := (List.pairwise_cons.mp hpw).1 q hq
        have hpn := hbound p (List.mem_cons_self p pl)
        rw [List.length_eraseIdx, if_pos hrs]
        omega)
      (by rw [List.length_eraseIdx, if_pos hrs, List.length_eraseIdx, if_pos hrd]; omega)
    obtain ⟨out, hout⟩ := hnext
    refine ⟨out, ?_⟩
    unfold removeIndices
    rw [popAt_of_lt s r hrs, popAt_of_lt d r hrd]
    exact hout

theorem forall₂_le_append {l1 l2 m1 m2 : List Nat}
    (h1 : List.Forall₂ (· ≤ ·) l1 l2) (h2 : List.Forall₂ (· ≤ ·) m1 m2) :
    List.Forall₂ (· ≤ ·) (l1 ++ m1) (l2 ++ m2) := by
  induction h1 with
  | nil => simpa using h2
  | cons hab _h ih => exact List.Forall₂.cons hab ih

theorem forall₂_le_reverse {l1 l2 : List Nat}
    (h : List.Forall₂ (· ≤ ·) l1 l2) :
    List.Forall₂ (· ≤ ·) l1.reverse l2.reverse := by
  induction h with
  | nil => exact List.Forall₂.nil
  | cons hab _h ih =>
    simp only [List.reverse_cons]
    exact forall₂_le_append ih (List.Forall₂.cons hab List.Forall₂.nil)

theorem indexOf_le_of_drop : ∀ (full : List PyStr) (k : Nat) (f : PyStr)
    (rest : List PyStr), full.drop k = f :: rest → full.indexOf f ≤ k := by
  intro full
  induction full with
  | nil => intro k f rest h; rw [List.drop_nil] at h; cases h
  | cons a t ih =>
    intro k f rest h
    cases k with
    | zero =>
      rw [List.drop_zero] at h
      injection h with h1 _
      subst h1
      simp [List.indexOf_cons]
    | succ k =>
      rw [List.drop_succ_cons] at h
      have hle := ih k f rest h
      rw [List.indexOf_cons]
      cases hb : a == f <;> simp [hb] <;> omega

theorem scanExts_nomatch (fl : PyStr) (idx : Nat) (ni : Bool) :
    ∀ (exts : List (List PyStr × Int)) (replies : List String),
      (∀ g ∈ exts, endswithAny fl g.1 = false) →
      scanExts fl idx ni exts replies = .ok ([], replies) := by
  intro exts
  induction exts with
  | nil => intro replies _; rfl
  | cons g rest ih =>
    intro replies h
    obtain ⟨exts0, opt⟩ := g
    have hm : endswithAny fl exts0 = false := h (exts0, opt) (List.mem_cons_self _ _)
    simp only [scanExts, hm, Bool.false_eq_true, if_false]
    exact ih replies (fun g2 hg2 => h g2 (List.mem_cons_of_mem _ hg2))

theorem scanExts_shape (fl : PyStr) (idx : Nat) (ni : Bool) :
    ∀ (exts : List (List PyStr × Int)) (replies : List String)
      (idxs : List Nat) (r1 : List String), AtMostOneMatch fl exts →
      scanExts fl idx ni exts replies = .ok (idxs, r1) →
      idxs = [] ∨ idxs = [idx] := by
  intro exts
  induction exts with
  | nil =>
    intro replies idxs r1 _ hok
    simp only [scanExts, Except.ok.injEq, Prod.mk.injEq] at hok
    exact Or.inl hok.1.symm
  | cons g rest ih =>
    intro replies idxs r1 hamo hok
    obtain ⟨exts0, opt⟩ := g
    obtain ⟨hhead, htail⟩ := hamo
    by_cases hm : endswithAny fl exts0 = true
    · have hrest0 : ∀ g2 ∈ rest, endswithAny fl g2.1 = false := hhead hm
      simp only [scanExts, hm, if_true] at hok
      by_cases hopt : opt = PROMPT
      · rw [if_pos hopt] at hok
        by_cases hni : ni = true
        · rw [if_pos hni] at hok
          simp only [Except.ok.injEq, Prod.mk.injEq] at hok
          exact Or.inl hok.1.symm
        · have hni2 : ni = false := by
            cases ni
            · rfl
            · exact absurd rfl hni
          subst hni2
          simp only [Bool.false_eq_true, if_false] at hok
          cases hpr : promptRun replies with
          | none =>
            simp only [hpr] at hok
            cases hok
          | some pr =>
            obtain ⟨b, r2⟩ := pr
            cases b
            · simp only [hpr,
                scanExts_nomatch fl idx false rest r2 hrest0,
                Except.ok.injEq, Prod.mk.injEq] at hok
              exact Or.inr hok.1.symm
            · simp only [hpr, Except.ok.injEq, Prod.mk.injEq] at hok
              exact Or.inl hok.1.symm
      · rw [if_neg hopt] at hok
        by_cases hno : opt = NO
        · rw [if_pos hno] at hok
          simp only [Except.ok.injEq, Prod.mk.injEq] at hok
          exact Or.inl hok.1.symm
        · rw [if_neg hno] at hok
          rw [scanExts_nomatch fl idx ni rest replies hrest0] at hok
          simp only [Except.ok.injEq, Prod.mk.injEq] at hok
          exact Or.inr hok.1.symm
    · have hm2 : endswithAny fl exts0 = false := by
        cases hx : endswithAny fl exts0
        · rfl
        · exact absurd hx hm
      simp only [scanExts, hm2, Bool.false_eq_true, if_false] at hok
      exact ih replies idxs r1 htail hok

theorem scanExts_ok_of_no_prompt (fl : PyStr) (idx : Nat) (ni : Bool) :
    ∀ (exts : List (List PyStr × Int)) (replies : List String),
      (ni = true ∨ ∀ g ∈ exts, g.2 ≠ PROMPT) →
      ∃ res, scanExts fl idx ni exts replies = .ok res := by
  intro exts
  induction exts with
  | nil => intro replies _; exact ⟨([], replies), rfl⟩
  | cons g rest ih =>
    intro replies h
    obtain ⟨exts0, opt⟩ := g
    have htail : ni = true ∨ ∀ g ∈ rest, g.2 ≠ PROMPT :=
      h.imp id (fun hh g hg => hh g (List.mem_cons_of_mem _ hg))
    by_cases hm : endswithAny fl exts0 = true
    · by_cases hopt : opt = PROMPT
      · have hni : ni = true := by
          rcases h with h | h
          · exact h
          · exact absurd hopt (h (exts0, opt) (List.mem_cons_self _ _))
        exact ⟨([], replies), by simp [scanExts, hm, hopt, hni]⟩
      · by_cases hno : opt = NO
        · exact ⟨([], replies), by simp [scanExts, hm, hopt, hno, NO, PROMPT]⟩
        · obtain ⟨⟨l, r2⟩, hres⟩ := ih replies htail
          exact ⟨(idx :: l, r2), by simp [scanExts, hm, hopt, hno, hres]⟩
    · have hm2 : endswithAny fl exts0 = false := by
        cases hx : endswithAny fl exts0
        · rfl
        · exact absurd hx hm
      obtain ⟨res, hres⟩ := ih replies htail
      exact ⟨res, by simp [scanExts, hm2, hres]⟩

theorem not_both_suffix (e1 e2 fl : PyStr) (h12 : e1.isSuffixOf e2 = false)
    (h21 : e2.isSuffixOf e1 = false) :
    ¬(e1.isSuffixOf fl = true ∧ e2.isSuffixOf fl = true) := by
  rintro ⟨ha, hb⟩
  rw [List.isSuffixOf_iff_suffix] at ha hb
  rcases le_total e1.length e2.length with h | h
  · have hs := List.suffix_of_suffix_length_le ha hb h
    rw [← List.isSuffixOf_iff_suffix] at hs
    rw [h12] at hs
    cases hs
  · have hs := List.suffix_of_suffix_length_le hb ha h
    rw [← List.isSuffixOf_iff_suffix] at hs
    rw [h21] at hs
    cases hs

theorem endswithAny_not_both (g1 g2 : List PyStr) (fl : PyStr)
    (h : ∀ e1 ∈ g1, ∀ e2 ∈ g2,
      e1.isSuffixOf e2 = false ∧ e2.isSuffixOf e1 = false)
    (h1 : endswithAny fl g1 = true) (h2 : endswithAny fl g2 = true) :
    False := by
  unfold endswithAny at h1 h2
  rw [List.any_eq_true] at h1 h2
  obtain ⟨e1, he1, hs1⟩ := h1
  obtain ⟨e2, he2, hs2⟩ := h2
  exact not_both_suffix e1 e2 fl (h e1 he1 e2 he2).1 (h e1 he1 e2 he2).2 ⟨hs1, hs2⟩

theorem endswith_false_of_other (g1 g2 : List PyStr) (fl : PyStr)
    (h : ∀ e1 ∈ g1, ∀ e2 ∈ g2,
      e1.isSuffixOf e2 = false ∧ e2.isSuffixOf e1 = false)
    (h1 : endswithAny fl g1 = true) : endswithAny fl g2 = false := by
  cases hx : endswithAny fl g2
  · rfl
  · exact (endswithAny_not_both g1 g2 fl h h1 hx).elim

theorem extensionList_atMostOne (cfg : String → Int) (fl : PyStr) :
    AtMostOneMatch fl (extensionList cfg) := by
  refine ⟨?_, ?_, ?_, ?_, trivial⟩
  · intro hm g2 hg2
    simp only [List.mem_cons, List.not_mem_nil, or_false] at hg2
    rcases hg2 with h | h | h <;> subst h
    · exact endswith_false_of_other imageExt logExt fl (by decide) hm
    · exact endswith_false_of_other imageExt cueExt fl (by decide) hm
    · exact endswith_false_of_other imageExt m3uExt fl (by decide) hm
  · intro hm g2 hg2
    simp only [List.mem_cons, List.not_mem_nil, or_false] at hg2
    rcases hg2 with h | h <;> subst h
    · exact endswith_false_of_other logExt cueExt fl (by decide) hm
    · exact endswith_false_of_other logExt m3uExt fl (by decide) hm
  · intro hm g2 hg2
    simp only [List.mem_cons, List.not_mem_nil, or_false] at hg2
    subst hg2
    exact endswith_false_of_other cueExt m3uExt fl (by decide) hm
  · intro _ g2 hg2
    exact absurd hg2 (List.not_mem_nil g2)

theorem scanFiles_ok_of_no_prompt (cfg : String → Int) (ni : Bool)
    (full : List PyStr)
    (h : ni = true ∨ ((∀ g ∈ extensionList cfg, g.2 ≠ PROMPT) ∧
      otherOption cfg ≠ PROMPT)) :
    ∀ (remaining : List PyStr) (replies : List String),
      ∃ res, scanFiles cfg ni full remaining replies = .ok res := by
  intro remaining
  induction remaining with
  | nil => intro replies; exact ⟨([], replies), rfl⟩
  | cons file rest ih =>
    intro replies
    by_cases ha : endswithAny (lowerP file) audioExt = true
    · obtain ⟨res, hres⟩ := ih replies
      exact ⟨res, by simp [scanFiles, ha, hres]⟩
    · have ha2 : endswithAny (lowerP file) audioExt = false := by
        cases hx : endswithAny (lowerP file) audioExt
        · rfl
        · exact absurd hx ha
      by_cases hna : endswithAny (lowerP file) nonAudioExt = true
      · have hexts : ni = true ∨ ∀ g ∈ extensionList cfg, g.2 ≠ PROMPT :=
          h.imp id And.left
        obtain ⟨⟨idxs1, r1⟩, hs1⟩ := scanExts_ok_of_no_prompt (lowerP file)
          (full.indexOf file) ni (extensionList cfg) replies hexts
        obtain ⟨⟨idxs2, r2⟩, hs2⟩ := ih r1
        exact ⟨(idxs1 ++ idxs2, r2), by simp [scanFiles, ha2, hna, hs1, hs2]⟩
      · have hna2 : endswithAny (lowerP file) nonAudioExt = false := by
          cases hx : endswithAny (lowerP file) nonAudioExt
          · rfl
          · exact absurd hx hna
        by_cases hop : otherOption cfg = PROMPT
        · have hni : ni = true := by
            rcases h with h | h
            · exact h
            · exact absurd hop h.2
          subst hni
          obtain ⟨res, hres⟩ := ih replies
          exact ⟨res, by simp [scanFiles, ha2, hna2, hop, hres]⟩
        · by_cases hno : otherOption cfg = NO
          · obtain ⟨res, hres⟩ := ih replies
            exact ⟨res, by simp [scanFiles, ha2, hna2, hop, hno, hres, NO, PROMPT]⟩
          · obtain ⟨⟨idxs2, r2⟩, hs2⟩ := ih replies
            exact ⟨(full.indexOf file :: idxs2, r2),
              by simp [scanFiles, ha2, hna2, hop, hno, hs2]⟩

theorem scanFiles_good (cfg : String → Int) (ni : Bool) (full : List PyStr) :
    ∀ (remaining : List PyStr) (k : Nat) (replies : List String)
      (idxs : List Nat) (r1 : List String),
      full.drop k = remaining →
      scanFiles cfg ni full remaining replies = .ok (idxs, r1) →
      ∃ ps : List Nat, List.Forall₂ (· ≤ ·) idxs ps ∧
        ps.Pairwise (· < ·) ∧ ∀ p ∈ ps, k ≤ p ∧ p < full.length := by
  intro remaining
  induction remaining with
  | nil =>
    intro k replies idxs r1 _ hok
    simp only [scanFiles, Except.ok.injEq, Prod.mk.injEq] at hok
    refine ⟨[], ?_, List.Pairwise.nil, by simp⟩
    rw [← hok.1]
    exact List.Forall₂.nil
  | cons file rest ih =>
    intro k replies idxs r1 hdrop hok
    have hk : k < full.length := by
      by_contra hcon
      push_neg at hcon
      rw [List.drop_eq_nil_of_le hcon] at hdrop
      cases hdrop
    have hdrop1 : full.drop (k + 1) = rest := by
      rw [← List.tail_drop, hdrop]
      rfl
    have hidx : full.indexOf file ≤ k := indexOf_le_of_drop full k file rest hdrop
    have weaken : ∀ (ps : List Nat),
        (∀ p ∈ ps, k + 1 ≤ p ∧ p < full.length) →
        ∀ p ∈ ps, k ≤ p ∧ p < full.length :=
      fun ps hps p hp => ⟨le_trans (Nat.le_succ k) (hps p hp).1, (hps p hp).2⟩
    by_cases ha : endswithAny (lowerP file) audioExt = true
    · simp only [scanFiles, ha, if_true] at hok
      obtain ⟨ps, f2, pw, hb⟩ := ih (k + 1) replies idxs r1 hdrop1 hok
      exact ⟨ps, f2, pw, weaken ps hb⟩
    · have ha2 : endswithAny (lowerP file) audioExt = false := by
        cases hx : endswithAny (lowerP file) audioExt
        · rfl
        · exact absurd hx ha
      by_cases hna : endswithAny (lowerP file) nonAudioExt = true
      · simp only [scanFiles, ha2, Bool.false_eq_true, if_false, hna, if_true] at hok
        cases hs1 : scanExts (lowerP file) (full.indexOf file) ni
            (extensionList cfg) replies with
        | error e => simp only [hs1] at hok; cases hok
        | ok pr1 =>
          obtain ⟨idxs1, r2⟩ := pr1
          simp only [hs1] at hok
          cases hs2 : scanFiles cfg ni full rest r2 with
          | error e => simp only [hs2] at hok; cases hok
          | ok pr2 =>
            obtain ⟨idxs2, r3⟩ := pr2
            simp only [hs2, Except.ok.injEq, Prod.mk.injEq] at hok
            obtain ⟨h1, _⟩ := hok
            subst h1
            obtain ⟨ps2, f2, pw2, hb2⟩ := ih (k + 1) r2 idxs2 r3 hdrop1 hs2
            rcases scanExts_shape (lowerP file) (full.indexOf file) ni
                (extensionList cfg) replies idxs1 r2
                (extensionList_atMostOne cfg (lowerP file)) hs1 with h0 | h0
            · subst h0
              exact ⟨ps2, by simpa using f2, pw2, weaken ps2 hb2⟩
            · subst h0
              refine ⟨k :: ps2, ?_, ?_, ?_⟩
              · exact List.Forall₂.cons hidx f2
              · rw [List.pairwise_cons]
                exact ⟨fun q hq => (hb2 q hq).1, pw2⟩
              · intro p hp
                rcases List.mem_cons.mp hp with h | h
                · subst h; exact ⟨le_refl _, hk⟩
                · exact weaken ps2 hb2 p h
      · have hna2 : endswithAny (lowerP file) nonAudioExt = false := by
          cases hx : endswithAny (lowerP file) nonAudioExt
          · rfl
          · exact absurd hx hna
        simp only [scanFiles, ha2, hna2, Bool.false_eq_true, if_false] at hok
        by_cases hop : otherOption cfg = PROMPT
        · rw [if_pos hop] at hok
          by_cases hni : ni = true
          · subst hni
            simp only [if_true] at hok
            obtain ⟨ps, f2, pw, hb⟩ := ih (k + 1) replies idxs r1 hdrop1 hok
            exact ⟨ps, f2, pw, weaken ps hb⟩
          · have hni2 : ni = false := by
              cases ni
              · rfl
              · exact absurd rfl hni
            subst hni2
            simp only [Bool.false_eq_true, if_false] at hok
            cases hpr : promptRun replies with
            | none => simp only [hpr] at hok; cases hok
            | some pr =>
              obtain ⟨b, r2⟩ := pr
              cases b
              · simp only [hpr] at hok
                cases hs2 : scanFiles cfg false full rest r2 with
                | error e => simp only [hs2] at hok; cases hok
                | ok pr2 =>
                  obtain ⟨idxs2, r3⟩ := pr2
                  simp only [hs2, Except.ok.injEq, Prod.mk.injEq] at hok
                  obtain ⟨h1, _⟩ := hok
                  subst h1
                  obtain ⟨ps2, f2, pw2, hb2⟩ := ih (k + 1) r2 idxs2 r3 hdrop1 hs2
                  refine ⟨k :: ps2, List.Forall₂.cons hidx f2, ?_, ?_⟩
                  · rw [List.pairwise_cons]
                    exact ⟨fun q hq => (hb2 q hq).1, pw2⟩
                  · intro p hp
                    rcases List.mem_cons.mp hp with h | h
                    · subst h; exact ⟨le_refl _, hk⟩
                    · exact weaken ps2 hb2 p h
              · simp only [hpr] at hok
                obtain ⟨ps, f2, pw, hb⟩ := ih (k + 1) r2 idxs r1 hdrop1 hok
                exact ⟨ps, f2, pw, weaken ps hb⟩
        · rw [if_neg hop] at hok
          by_cases hno : otherOption cfg = NO
          · rw [if_pos hno] at hok
            obtain ⟨ps, f2, pw, hb⟩ := ih (k + 1) replies idxs r1 hdrop1 hok
            exact ⟨ps, f2, pw, weaken ps hb⟩
          · rw [if_neg hno] at hok
            cases hs2 : scanFiles cfg ni full rest replies with
            | error e => simp only [hs2] at hok; cases hok
            | ok pr2 =>
              obtain ⟨idxs2, r3⟩ := pr2
              simp only [hs2, Except.ok.injEq, Prod.mk.injEq] at hok
              obtain ⟨h1, _⟩ := hok
              subst h1
              obtain ⟨ps2, f2, pw2, hb2⟩ := ih (k + 1) replies idxs2 r3 hdrop1 hs2
              refine ⟨k :: ps2, List.Forall₂.cons hidx f2, ?_, ?_⟩
              · rw [List.pairwise_cons]
                exact ⟨fun q hq => (hb2 q hq).1, pw2⟩
              · intro p hp
                rcases List.mem_cons.mp hp with h | h
                · subst h; exact ⟨le_refl _, hk⟩
                · exact weaken ps2 hb2 p h

theorem filterOutExtensions_ok (src dst : List PyStr) (cfg : String → Int)
    (ni : Bool) (replies : List String) (hlen : src.length = dst.length)
    (h : ni = true ∨ ((∀ g ∈ extensionList cfg, g.2 ≠ PROMPT) ∧
      otherOption cfg ≠ PROMPT)) :
    ∃ out, filterOutExtensions src dst cfg ni replies = .ok out := by
  obtain ⟨⟨idxs, r1⟩, hscan⟩ :=
    scanFiles_ok_of_no_prompt cfg ni src h src replies
  obtain ⟨ps, hf2, hpw, hb⟩ :=
    scanFiles_good cfg ni src src 0 replies idxs r1 (by simp) hscan
  have hf2r := forall₂_le_reverse hf2
  have hpwr : ps.reverse.Pairwise (· > ·) := by
    rw [List.pairwise_reverse]
    exact hpw
  have hbr : ∀ p ∈ ps.reverse, p < src.length :=
    fun p hp => (hb p (List.mem_reverse.mp hp)).2
  obtain ⟨⟨s1, d1⟩, hrem⟩ := removeIndices_ok idxs.reverse ps.reverse hf2r
    src dst hpwr hbr hlen
  refine ⟨((s1, d1), r1), ?_⟩
  unfold filterOutExtensions
  simp only [hscan, hrem]

/-! ## Directory-creation lemmas -/

theorem splitHeadTail_length_lt (name : PyStr)
    (h2 : (splitHeadTail name).2 ≠ []) :
    (splitHeadTail name).1.length < name.length := by
  by_cases hb : pyBasename name = []
  · have h1 : splitHeadTail name =
        (pyDirname (pyDirname name), pyBasename (pyDirname name)) := by
      unfold splitHeadTail
      rw [if_pos hb]
    rw [h1] at h2 ⊢
    simp only at h2 ⊢
    exact lt_of_lt_of_le
      (pyDirname_length_lt (pyDirname name) h2)
      (pyDirname_length_le name)
  · have h1 : splitHeadTail name = (pyDirname name, pyBasename name) := by
      unfold splitHeadTail
      rw [if_neg hb]
    rw [h1] at h2 ⊢
    simp only at h2 ⊢
    exact pyDirname_length_lt name h2

theorem mkdir_err_isOSError (fs : FSState) (name : PyStr) (e : PyErr)
    (h : (mkdir fs name).2 = some e) : e.isOSError = true := by
  unfold mkdir at h
  split at h
  · simp only [Option.some.injEq] at h
    rw [← h]
    rfl
  · split at h
    · simp at h
    · simp only [Option.some.injEq] at h
      rw [← h]
      split <;> rfl

theorem makedirs_err_isOSError : ∀ (fuel : Nat) (fs : FSState) (name : PyStr),
    name.length < fuel →
    ∀ e, (makedirs fuel fs name).2 = some e → e.isOSError = true := by
  intro fuel
  induction fuel with
  | zero => intro fs name h; exact absurd h (Nat.not_lt_zero _)
  | succ f ih =>
    intro fs name h e he
    unfold makedirs at he
    by_cases hcond : (splitHeadTail name).1 ≠ [] ∧ (splitHeadTail name).2 ≠ [] ∧
        pathExists fs (splitHeadTail name).1 = false
    · rw [if_pos hcond] at he
      have hlt : (splitHeadTail name).1.length < f :=
        lt_of_lt_of_le (splitHeadTail_length_lt name hcond.2.1)
          (Nat.lt_succ_iff.mp h)
      cases hm : makedirs f fs (splitHeadTail name).1 with
      | mk fs1 e1 =>
        cases e1 with
        | none =>
          rw [hm] at he
          exact mkdir_err_isOSError fs1 name e he
        | some e2 =>
          rw [hm] at he
          cases e2 <;>
            first
              | exact mkdir_err_isOSError fs1 name e he
              | (simp only [Option.some.injEq] at he
                 rw [← he]
                 exact ih fs _ hlt _ (by rw [hm]))
    · rw [if_neg hcond] at he
      exact mkdir_err_isOSError fs name e he

theorem processTarget_err_isOSError (overwrite : Int) (hov : overwrite ≠ PROMPT)
    (quiet : Bool) (fs : FSState) (replies : List String) (t : PyStr)
    (e : PyErr)
    (h : (processTarget overwrite quiet fs replies t).2.2.2 = some e) :
    e.isOSError = true := by
  unfold processTarget at h
  by_cases h1 : isdir fs t = true
  · rw [if_pos h1] at h
    simp at h
  · rw [if_neg (by simp [h1])] at h
    by_cases h2 : isfile fs t = true
    · rw [if_pos h2] at h
      by_cases h3 : overwrite = YES
      · rw [if_pos h3] at h
        cases hm : makedirs (t.length + 1) (pyRemove fs t) t with
        | mk fs1 e1 =>
          rw [hm] at h
          simp only at h
          exact makedirs_err_isOSError (t.length + 1) (pyRemove fs t) t
            (Nat.lt_succ_self _) e (by rw [hm, h])
      · rw [if_neg h3, if_neg hov] at h
        simp only [Option.some.injEq] at h
        rw [← h]
        rfl
    · rw [if_neg (by simp [h2])] at h
      cases hm : makedirs (t.length + 1) fs t with
      | mk fs1 e1 =>
        rw [hm] at h
        simp only at h
        exact makedirs_err_isOSError (t.length + 1) fs t
          (Nat.lt_succ_self _) e (by rw [hm, h])

theorem createDirsLoop_ok (overwrite : Int) (hov : overwrite ≠ PROMPT)
    (quiet : Bool) :
    ∀ (targets : List PyStr) (fs : FSState) (replies : List String)
      (msgs : List PyStr),
      ∃ res, createDirsLoop overwrite quiet targets fs replies msgs = .ok res := by
  intro targets
  induction targets with
  | nil => intro fs replies msgs; exact ⟨(fs, msgs, replies), rfl⟩
  | cons t rest ih =>
    intro fs replies msgs
    cases hp : processTarget overwrite quiet fs replies t with
    | mk fs1 tail =>
      obtain ⟨r1, m1, e1⟩ := tail
      cases e1 with
      | none =>
        obtain ⟨res, hres⟩ := ih fs1 r1 (msgs ++ m1)
        exact ⟨res, by simp only [createDirsLoop, hp, hres]⟩
      | some e =>
        have hos : e.isOSError = true :=
          processTarget_err_isOSError overwrite hov quiet fs replies t e
            (by rw [hp])
        obtain ⟨res, hres⟩ := ih fs1 r1
          (msgs ++ m1 ++
            (if quiet then []
             else [pys "ERROR: Failed to create " ++ t ++ pys "!"]))
        exact ⟨res, by simp only [createDirsLoop, hp, hos, if_true, hres]⟩

theorem createDirsLoop_file_step (quiet : Bool) (rest : List PyStr)
    (fs : FSState) (replies : List String) (msgs : List PyStr) (t : PyStr)
    (h1 : isdir fs t = false) (h2 : isfile fs t = true) :
    createDirsLoop NO quiet (t :: rest) fs replies msgs =
      createDirsLoop NO quiet rest fs replies
        (msgs ++
          (if quiet then []
           else [pys "ERROR: attempting to overwrite a file with a directory!"]) ++
          (if quiet then []
           else [pys "ERROR: Failed to create " ++ t ++ pys "!"])) := by
  have hp : processTarget NO quiet fs replies t =
      (fs, replies,
       (if quiet then []
        else [pys "ERROR: attempting to overwrite a file with a directory!"]),
       some .oserror) := by
    unfold processTarget
    rw [if_neg (by simp [h1]), if_pos h2, if_neg (by decide), if_neg (by decide)]
  simp only [createDirsLoop, hp, PyErr.isOSError, if_true]

end Transfat

/-! # Claim C10 -/

/-- C10: `fatsortAvailable` returns true exactly when the availability
check command (`type fatsort`) exits with a NON-zero status — i.e. it
returns true when fatsort is NOT found — and the driver's availability
gate passes precisely when the check command fails. -/
theorem C10_fatsortAvailable_inverted (exitCode : Int) :
    (Transfat.fatsortAvailable exitCode = true ↔ exitCode ≠ 0) ∧
    (Transfat.fatsortGatePasses exitCode = true ↔ exitCode ≠ 0) := by
  unfold Transfat.fatsortGatePasses Transfat.fatsortAvailable
  constructor <;> simp [bne_iff_ne]

/-! # Claim C4 -/

namespace Transfat

/-- C4 counterexample: with the two-entry mount table
`[(/dev/sda1, /mnt/a), (/dev/sdb1, /mnt/b)]`, destination `/home/x`
(matching no mountpoint) and interactive selection reply `-1`, the device
resolver does NOT report an invalid index and return empty strings: via
Python negative list indexing (`deviceListSep[ans-1]` with `ans-1 = -2`)
it returns the real pair `(/dev/sda1, /mnt/a)` with no error output,
refuting the claim that every out-of-range index (including negative
ones) yields the pair of empty strings. -/
theorem C4_counterexample_negative_index :
    findDeviceLocation
        [(pys "/dev/sda1", pys "/mnt/a"), (pys "/dev/sdb1", pys "/mnt/b")]
        (pys "/home/x") (pys "/") false false false "-1" =
      .ok ((pys "/dev/sda1", pys "/mnt/a"), []) ∧
    (pys "/dev/sda1", pys "/mnt/a") ≠ (([] : PyStr), ([] : PyStr)) := by
  constructor
  · decide
  · decide

/-- C4 (amended): for every non-empty mount table with `n` entries and
every interactive selection index STRICTLY GREATER THAN `n`, the device
resolver reports an invalid-index condition (unless quiet) and returns
the pair of empty strings.  (Negative indices are NOT range-checked by
the code: they fall into Python's negative list indexing, returning a
real pair or raising `IndexError`.) -/
theorem C4_invalid_index_above_range (table : List (PyStr × PyStr))
    (destination cwd : PyStr) (verbose quiet : Bool) (reply : String)
    (ans : Int) (hne : table ≠ [])
    (hnom : ∀ dm ∈ table, dm.2.isPrefixOf (pyAbspath cwd destination) = false)
    (hr : pyInt reply = some ans) (hgt : (table.length : Int) < ans) :
    findDeviceLocation table destination cwd false verbose quiet reply =
      .ok (([], []), if quiet then [] else [pys "ERROR: invalid index"]) := by
  have hfind : table.find? (fun dm => dm.2.isPrefixOf (pyAbspath cwd destination)) = none :=
    List.find?_eq_none.mpr (by intro x hx; simp [hnom x hx])
  have hne0 : ans ≠ 0 := by
    have : (0 : Int) ≤ (table.length : Int) := Int.ofNat_nonneg _
    omega
  unfold findDeviceLocation
  rw [if_neg hne, hfind]
  simp only [hr, if_neg hne0, if_pos hgt, Bool.false_eq_true, if_false]

/-- C4 witness: the amended theorem applied at a concrete input — table
of two devices, unmatched destination, reply `5` (greater than 2),
non-quiet — produces the empty pair plus the invalid-index report. -/
theorem C4_invalid_index_above_range_witness :
    findDeviceLocation
        [(pys "/dev/sda1", pys "/mnt/a"), (pys "/dev/sdb1", pys "/mnt/b")]
        (pys "/home/x") (pys "/") false false false "5" =
      .ok (([], []), [pys "ERROR: invalid index"]) := by
  have h := C4_invalid_index_above_range
    [(pys "/dev/sda1", pys "/mnt/a"), (pys "/dev/sdb1", pys "/mnt/b")]
    (pys "/home/x") (pys "/") false false "5" 5
    (by decide) (by decide) (by decide) (by decide)
  simpa using h

/-! # Claim C5 -/

/-- C5 counterexample: for the absolute regular file `/song.mp3`, whose
parent directory is the filesystem root `/`, and destination root
`/mnt`, the expansion produces `destinationFiles = ["/mntsong.mp3"]`
(the code computes `destinationPath + source[len(dirname):]` and
`dirname` is `/` of length 1, so no separator is inserted) — not
`"/mnt" + "/" + "song.mp3"` as the claim asserts for every parent
directory including the root. -/
theorem C5_counterexample_root_parent :
    getSourceAndDestinationLists [pys "/song.mp3"] (pys "/mnt") (pys "/")
        (fun q => if q = pys "/song.mp3" then .isFile else .missing) false =
      ⟨[], [pys "/song.mp3"], [], [pys "/mntsong.mp3"], []⟩ ∧
    pys "/mntsong.mp3" ≠ pys "/mnt" ++ '/' :: pys "song.mp3" := by
  constructor
  · decide
  · decide

/-- C5 (amended): expanding a single absolute regular file `f` with
destination root `d` yields `sourceFiles = [f]`, empty directory lists,
and `destinationFiles = [d ++ f[len(dirname(f)):]]`.  When the parent of
`f` is a normal directory (`f = p ++ "/" ++ b` with `b` slash-free and
`p` nonempty not ending in a slash) this equals `d + "/" + b`; when the
parent is the root (`f = "/" ++ b`) the code inserts NO separator and
the destination is `d ++ b`. -/
theorem C5_single_file_destination :
    (∀ (cwd d p b : PyStr) (fsStat : PyStr → PathStatus) (quiet : Bool),
      b ≠ [] → '/' ∉ b → p ≠ [] → p.getLast? ≠ some '/' →
      pyAbspath cwd (p ++ '/' :: b) = p ++ '/' :: b →
      pyAbspath cwd d = d →
      fsStat (p ++ '/' :: b) = .isFile →
      getSourceAndDestinationLists [p ++ '/' :: b] d cwd fsStat quiet =
        ⟨[], [p ++ '/' :: b], [], [d ++ '/' :: b], []⟩) ∧
    (∀ (cwd d b : PyStr) (fsStat : PyStr → PathStatus) (quiet : Bool),
      b ≠ [] → '/' ∉ b →
      pyAbspath cwd ('/' :: b) = '/' :: b →
      pyAbspath cwd d = d →
      fsStat ('/' :: b) = .isFile →
      getSourceAndDestinationLists ['/' :: b] d cwd fsStat quiet =
        ⟨[], ['/' :: b], [], [d ++ b], []⟩) := by
  constructor
  · intro cwd d p b fsStat quiet _hb hbs hp hpe hf hd hstat
    rw [expand_single _ _ _ _ _ hf hd, expandOne_file _ _ _ _ hstat,
        pyDirname_append p b hbs hp hpe, List.drop_left]
  · intro cwd d b fsStat quiet _hb hbs hf hd hstat
    rw [expand_single _ _ _ _ _ hf hd, expandOne_file _ _ _ _ hstat,
        pyDirname_root b hbs]
    simp [pys]

/-- C5 witness: the amended theorem at the concrete file
`/music/song.mp3` and destination `/mnt`: the plan pairs the file with
`/mnt/song.mp3` and the directory lists are empty. -/
theorem C5_single_file_destination_witness :
    getSourceAndDestinationLists [pys "/music/song.mp3"] (pys "/mnt") (pys "/")
        (fun q => if q = pys "/music/song.mp3" then .isFile else .missing) false =
      ⟨[], [pys "/music/song.mp3"], [], [pys "/mnt/song.mp3"], []⟩ := by
  have h := C5_single_file_destination.1 (pys "/") (pys "/mnt") (pys "/music")
    (pys "song.mp3")
    (fun q => if q = pys "/music/song.mp3" then .isFile else .missing) false
    (by decide) (by decide) (by decide) (by decide) (by decide) (by decide)
    (by rfl)
  simpa using h

/-! # Claim C6 -/

/-- C6: every (source, destination) pair produced by the expansion of a
single source path `s` (a directory tree or a regular file, with
destination root `d`) satisfies
`destination = d ++ source[len(dirname(s)):]` — the parent-directory
prefix of the top-level source is stripped and replaced by the
destination root; in particular expanding the directory `/a/b/c` with
destination `/mnt/d` maps it to `/mnt/d/c`, not `/mnt/d/b/c`. -/
theorem C6_destination_rule :
    (∀ (cwd d s : PyStr) (t : Tree) (fsStat : PyStr → PathStatus) (quiet : Bool),
      pyAbspath cwd s = s → pyAbspath cwd d = d → fsStat s = .isDir t →
      (∀ pr ∈ (getSourceAndDestinationLists [s] d cwd fsStat quiet).sourceDirs.zip
          (getSourceAndDestinationLists [s] d cwd fsStat quiet).destinationDirs,
        pr.2 = d ++ pr.1.drop (pyDirname s).length) ∧
      (∀ pr ∈ (getSourceAndDestinationLists [s] d cwd fsStat quiet).sourceFiles.zip
          (getSourceAndDestinationLists [s] d cwd fsStat quiet).destinationFiles,
        pr.2 = d ++ pr.1.drop (pyDirname s).length)) ∧
    (∀ (cwd d f : PyStr) (fsStat : PyStr → PathStatus) (quiet : Bool),
      pyAbspath cwd f = f → pyAbspath cwd d = d → fsStat f = .isFile →
      (getSourceAndDestinationLists [f] d cwd fsStat quiet).destinationFiles =
        [d ++ f.drop (pyDirname f).length]) ∧
    (getSourceAndDestinationLists [pys "/a/b/c"] (pys "/mnt/d") (pys "/")
        (fun q => if q = pys "/a/b/c" then .isDir (.node .nil []) else .missing)
        false).destinationDirs = [pys "/mnt/d/c"] := by
  refine ⟨?_, ?_, by decide⟩
  · intro cwd d s t fsStat quiet hs hd hstat
    rw [expand_single _ _ _ _ _ hs hd]
    unfold expandOne
    rw [hstat]
    simp only
    constructor
    · intro pr hpr
      rw [List.zip_map'] at hpr
      obtain ⟨rf, _, heq⟩ := List.mem_map.mp hpr
      rw [← heq]
    · intro pr hpr
      refine zip_flatMap_pointwise
        (fun q => q.2 = d ++ q.1.drop (pyDirname s).length) (walk s t) _ _
        (fun a _ => by simp) ?_ pr hpr
      intro rf hrf q hq
      rw [List.zip_map'] at hq
      obtain ⟨file, _, heq⟩ := List.mem_map.mp hq
      rw [← heq]
      simp only
      rw [List.drop_append_of_le_length
        (le_trans (pyDirname_length_le s) (walk_len_le s t rf hrf)),
        List.append_assoc]
  · intro cwd d f fsStat quiet hf hd hstat
    rw [expand_single _ _ _ _ _ hf hd, expandOne_file _ _ _ _ hstat]

/-- C6 witness: the directory part of the rule at a concrete input —
expanding directory `/a/b` (containing file `x.mp3`) to `/mnt/d`: the
walk pairs `/a/b ↦ /mnt/d/b` and `/a/b/x.mp3 ↦ /mnt/d/b/x.mp3`, i.e.
each destination is `/mnt/d ++ source[len("/a"):]`. -/
theorem C6_destination_rule_witness :
    ∀ pr ∈ (getSourceAndDestinationLists [pys "/a/b"] (pys "/mnt/d") (pys "/")
        (fun q => if q = pys "/a/b" then .isDir (.node .nil [pys "x.mp3"])
                  else .missing) false).sourceFiles.zip
        (getSourceAndDestinationLists [pys "/a/b"] (pys "/mnt/d") (pys "/")
        (fun q => if q = pys "/a/b" then .isDir (.node .nil [pys "x.mp3"])
                  else .missing) false).destinationFiles,
      pr.2 = pys "/mnt/d" ++ pr.1.drop (pyDirname (pys "/a/b")).length := by
  exact (C6_destination_rule.1 (pys "/") (pys "/mnt/d") (pys "/a/b")
    (.node .nil [pys "x.mp3"])
    (fun q => if q = pys "/a/b" then .isDir (.node .nil [pys "x.mp3"])
              else .missing) false (by decide) (by decide) (by simp)).2

/-! # Claim C3 (counterexample; the amended theorem appears after the
transfer-planner and directory-creation embeddings) -/

/-- C3 counterexample: with a non-empty mount table, a destination
matching no mountpoint, interactive mode, and the device-selection reply
`"abc"` (not a parseable integer), `findDeviceLocation` raises an
uncaught `ValueError` (`ans = int(input(...))`) instead of returning a
sentinel value — refuting the claim that the core never raises for any
interactive reply. -/
theorem C3_counterexample_unparseable_reply :
    findDeviceLocation [(pys "/dev/sdb1", pys "/mnt/usb")]
        (pys "/home/x") (pys "/") false false false "abc" =
      .error .valueError := by
  decide

/-! # Claim C1 -/

/-- C1: with settings `{RemoveImage: YES}` (every other key `NO`) and
source files `["a.mp3", "b.jpg", "c.log"]`, the filter phase keeps ALL
three files — in particular `b.jpg` is NOT removed, because the code
loads `imageOption` from the config key `'RemoveCue'` (source line 335)
instead of the remove-images setting, so the remove-images value is
never consulted.  This refutes the claim that image files are governed
by the remove-images setting (which would have filtered the lists to
`["a.mp3", "c.log"]`). -/
theorem C1_image_files_not_governed_by_removeImages :
    filterOutExtensions [pys "a.mp3", pys "b.jpg", pys "c.log"]
        [pys "/d/a.mp3", pys "/d/b.jpg", pys "/d/c.log"]
        (fun k => if k = "RemoveImage" then YES else NO) true [] =
      .ok (([pys "a.mp3", pys "b.jpg", pys "c.log"],
            [pys "/d/a.mp3", pys "/d/b.jpg", pys "/d/c.log"]), []) ∧
    [pys "a.mp3", pys "b.jpg", pys "c.log"] ≠ [pys "a.mp3", pys "c.log"] := by
  constructor
  · decide
  · decide

/-! # Claim C2 -/

/-- C2: audio files are NOT always retained when the input lists contain
duplicate paths of removable files.  With settings
`{RemoveOtherFiletypes: YES}` and source files
`["x.txt", "a.mp3", "x.txt"]`, the code records
`sourceFileList.index("x.txt") = 0` for BOTH occurrences of `x.txt`
(`.index` returns the first occurrence), then pops index 0 twice,
deleting `x.txt` and then the audio file `a.mp3` — and keeping the
second `x.txt`.  So `a.mp3` is absent from the filtered lists,
contradicting the always-retained rule (and the code's own comment
"This is an audio file; keep this file for sure"). -/
theorem C2_audio_file_removed_with_duplicates :
    filterOutExtensions [pys "x.txt", pys "a.mp3", pys "x.txt"]
        [pys "/d/x1", pys "/d/a1", pys "/d/x2"]
        (fun k => if k = "RemoveOtherFiletypes" then YES else NO) true [] =
      .ok (([pys "x.txt"], [pys "/d/x2"]), []) ∧
    pys "a.mp3" ∉ [pys "x.txt"] := by
  constructor
  · decide
  · decide

/-! # Claim C9 -/

/-- C9: the filter phase is NOT idempotent.  With settings
`{RemoveOtherFiletypes: YES}` (no setting is `PROMPT`) and input lists
`["x.txt", "a.mp3", "x.txt"]`, the first pass removes indices `[0, 0]`
(both occurrences of `x.txt` report first-occurrence index 0), leaving
`["x.txt"]` — a removable file.  Applying the filter a second time to
this already-filtered pair removes it, producing `([], [])`: the second
application removes a further entry, refuting idempotence. -/
theorem C9_filter_not_idempotent :
    filterOutExtensions [pys "x.txt", pys "a.mp3", pys "x.txt"]
        [pys "/d/x1", pys "/d/a1", pys "/d/x2"]
        (fun k => if k = "RemoveOtherFiletypes" then YES else NO) true [] =
      .ok (([pys "x.txt"], [pys "/d/x2"]), []) ∧
    filterOutExtensions [pys "x.txt"] [pys "/d/x2"]
        (fun k => if k = "RemoveOtherFiletypes" then YES else NO) true [] =
      .ok (([], []), []) ∧
    ([] : List PyStr) ≠ [pys "x.txt"] := by
  refine ⟨by decide, by decide, by decide⟩

/-! # Claim C7 -/

/-- C7: after the expansion phase the plan lists always satisfy
`len(sourceFiles) == len(destinationFiles)` and
`len(sourceDirs) == len(destinationDirs)`, and the filter phase
preserves the file-list equality: whenever `filterOutExtensions`
completes on lists of equal length, the two output lists again have
equal length (the removal loop pops the same index from both lists,
never from only one). -/
theorem C7_plan_length_invariants :
    (∀ (sources : List PyStr) (d cwd : PyStr) (fsStat : PyStr → PathStatus)
       (quiet : Bool),
      (getSourceAndDestinationLists sources d cwd fsStat quiet).sourceFiles.length =
        (getSourceAndDestinationLists sources d cwd fsStat quiet).destinationFiles.length ∧
      (getSourceAndDestinationLists sources d cwd fsStat quiet).sourceDirs.length =
        (getSourceAndDestinationLists sources d cwd fsStat quiet).destinationDirs.length) ∧
    (∀ (src dst : List PyStr) (cfg : String → Int) (ni : Bool)
       (replies : List String) (s1 d1 : List PyStr) (r1 : List String),
      src.length = dst.length →
      filterOutExtensions src dst cfg ni replies = .ok ((s1, d1), r1) →
      s1.length = d1.length) := by
  constructor
  · intro sources d cwd fsStat quiet
    exact expand_lengths sources d cwd fsStat quiet
  · intro src dst cfg ni replies s1 d1 r1 hlen hok
    unfold filterOutExtensions at hok
    cases hscan : scanFiles cfg ni src src replies with
    | error e => simp only [hscan] at hok; cases hok
    | ok pr =>
      obtain ⟨idxs, r2⟩ := pr
      simp only [hscan] at hok
      cases hrem : removeIndices src dst idxs.reverse with
      | error e => simp only [hrem] at hok; cases hok
      | ok out =>
        obtain ⟨s2, d2⟩ := out
        simp only [hrem, Except.ok.injEq, Prod.mk.injEq] at hok
        obtain ⟨⟨hs, hd⟩, _⟩ := hok
        rw [← hs, ← hd]
        exact removeIndices_lengths idxs.reverse src dst s2 d2 hlen hrem

/-- C7 witness: the filter part applied at a concrete input — filtering
`["a.mp3", "x.txt"]` against `["d1", "d2"]` with
`RemoveOtherFiletypes = YES` yields `(["a.mp3"], ["d1"])`, of equal
lengths. -/
theorem C7_plan_length_invariants_witness :
    ([pys "a.mp3"] : List PyStr).length = ([pys "d1"] : List PyStr).length :=
  C7_plan_length_invariants.2 [pys "a.mp3", pys "x.txt"] [pys "d1", pys "d2"]
    (fun k => if k = "RemoveOtherFiletypes" then YES else NO) true []
    [pys "a.mp3"] [pys "d1"] [] rfl (by decide)

/-! # Claim C8 -/

/-- C8: when the effective overwrite policy is not `PROMPT` (in
particular `OverwriteDestinationFiles = NO`, or `PROMPT` demoted to `NO`
by non-interactive mode), directory materialization never raises: it
returns normally for EVERY target list and filesystem state.  A target
that exists as a plain file (and not as a directory) reports the
overwrite error and the per-target creation failure (unless quiet), and
the loop continues with the remaining targets unchanged.  In particular
`createDirsAndParents(["/d/x", "/d/x/y"], overwrite=NO)` with `/d/x/y`
pre-existing as a plain file creates `/d/x`, reports the error for
`/d/x/y`, and the loop completes. -/
theorem C8_create_dirs_error_reported_loop_continues :
    (∀ (targets : List PyStr) (cfg : String → Int) (ni quiet : Bool)
       (replies : List String) (fs : FSState),
      (if ni = true ∧ cfg "OverwriteDestinationFiles" = PROMPT then NO
       else cfg "OverwriteDestinationFiles") ≠ PROMPT →
      ∃ res, createDirsAndParents targets cfg ni quiet replies fs = .ok res) ∧
    (∀ (quiet : Bool) (rest : List PyStr) (fs : FSState)
       (replies : List String) (msgs : List PyStr) (t : PyStr),
      isdir fs t = false → isfile fs t = true →
      createDirsLoop NO quiet (t :: rest) fs replies msgs =
        createDirsLoop NO quiet rest fs replies
          (msgs ++
            (if quiet then []
             else [pys "ERROR: attempting to overwrite a file with a directory!"]) ++
            (if quiet then []
             else [pys "ERROR: Failed to create " ++ t ++ pys "!"]))) ∧
    createDirsAndParents [pys "/d/x", pys "/d/x/y"] (fun _ => NO) false false
        [] ⟨[pys "/", pys "/d"], [pys "/d/x/y"]⟩ =
      .ok (⟨[pys "/", pys "/d", pys "/d/x"], [pys "/d/x/y"]⟩,
           [pys "ERROR: attempting to overwrite a file with a directory!",
            pys "ERROR: Failed to create /d/x/y!"], []) := by
  refine ⟨?_, ?_, by decide⟩
  · intro targets cfg ni quiet replies fs hov
    unfold createDirsAndParents
    exact createDirsLoop_ok _ hov quiet targets fs replies []
  · intro quiet rest fs replies msgs t h1 h2
    exact createDirsLoop_file_step quiet rest fs replies msgs t h1 h2

/-- C8 witness: the no-raise part at a concrete input (one target,
overwrite `NO`). -/
theorem C8_create_dirs_error_reported_loop_continues_witness :
    ∃ res, createDirsAndParents [pys "/a"] (fun _ => NO) false false []
        ⟨[pys "/"], []⟩ = .ok res :=
  C8_create_dirs_error_reported_loop_continues.1 [pys "/a"] (fun _ => NO)
    false false [] ⟨[pys "/"], []⟩ (by decide)

/-! # Claim C3 (amended theorem) -/

/-- C3 (amended): the core functions signal failure by sentinel returns
and do not raise, PROVIDED every interactive read succeeds; the
unconditional claim is refuted by `C3_counterexample_unparseable_reply`.
Precisely: (1) the device resolver returns (rather than raising)
whenever the interactive selection reply parses as a NON-NEGATIVE
integer (a non-parseable reply raises `ValueError`, and a sufficiently
negative one `IndexError`); (2) in non-interactive mode the resolver
always returns; (3) the filter returns on equal-length paired lists
(the invariant established by the expansion phase) whenever it performs
no prompt — non-interactive mode, or no governing setting equal to
`PROMPT`; expansion itself is modelled as a total function and cannot
raise; (4) directory materialization returns whenever the effective
overwrite policy is not `PROMPT`. -/
theorem C3_core_no_uncaught_exceptions :
    (∀ (table : List (PyStr × PyStr)) (destination cwd : PyStr)
       (verbose quiet : Bool) (reply : String) (ans : Int),
      pyInt reply = some ans → 0 ≤ ans →
      ∃ res, findDeviceLocation table destination cwd false verbose quiet reply =
        .ok res) ∧
    (∀ (table : List (PyStr × PyStr)) (destination cwd : PyStr)
       (verbose quiet : Bool) (reply : String),
      ∃ res, findDeviceLocation table destination cwd true verbose quiet reply =
        .ok res) ∧
    (∀ (src dst : List PyStr) (cfg : String → Int) (ni : Bool)
       (replies : List String),
      src.length = dst.length →
      (ni = true ∨ ((∀ g ∈ extensionList cfg, g.2 ≠ PROMPT) ∧
        otherOption cfg ≠ PROMPT)) →
      ∃ out, filterOutExtensions src dst cfg ni replies = .ok out) ∧
    (∀ (targets : List PyStr) (cfg : String → Int) (ni quiet : Bool)
       (replies : List String) (fs : FSState),
      (if ni = true ∧ cfg "OverwriteDestinationFiles" = PROMPT then NO
       else cfg "OverwriteDestinationFiles") ≠ PROMPT →
      ∃ res, createDirsAndParents targets cfg ni quiet replies fs = .ok res) := by
  refine ⟨?_, ?_, ?_, ?_⟩
  · intro table destination cwd verbose quiet reply ans hr hnn
    unfold findDeviceLocation
    by_cases ht : table = []
    · rw [if_pos ht]
      exact ⟨(([], []), []), rfl⟩
    · rw [if_neg ht]
      cases hf : table.find? (fun dm => dm.2.isPrefixOf (pyAbspath cwd destination)) with
      | some dm => exact ⟨(dm, []), by simp only [hf]⟩
      | none =>
        simp only [hf, Bool.false_eq_true, if_false, hr]
        by_cases h0 : ans = 0
        · rw [if_pos h0]
          exact ⟨(([], []), []), rfl⟩
        · rw [if_neg h0]
          by_cases hgt : (table.length : Int) < ans
          · rw [if_pos hgt]
            exact ⟨(([], []), if quiet then [] else [pys "ERROR: invalid index"]), rfl⟩
          · rw [if_neg hgt]
            have h1 : 0 ≤ ans - 1 := by omega
            have h2 : ¬ table.length ≤ (ans - 1).toNat := by omega
            cases hg : table.get? (ans - 1).toNat with
            | none => exact absurd (List.get?_eq_none.mp hg) h2
            | some dm =>
              have hpy : pyIndex table (ans - 1) = some dm := by
                unfold pyIndex
                rw [if_pos h1]
                exact hg
              exact ⟨(dm, []), by simp only [hpy]⟩
  · intro table destination cwd verbose quiet reply
    unfold findDeviceLocation
    by_cases ht : table = []
    · rw [if_pos ht]
      exact ⟨(([], []), []), rfl⟩
    · rw [if_neg ht]
      cases hf : table.find? (fun dm => dm.2.isPrefixOf (pyAbspath cwd destination)) with
      | some dm => exact ⟨(dm, []), by simp only [hf]⟩
      | none => exact ⟨(([], []), []), by simp only [hf, if_true]⟩
  · intro src dst cfg ni replies hlen h
    exact filterOutExtensions_ok src dst cfg ni replies hlen h
  · intro targets cfg ni quiet replies fs hov
    unfold createDirsAndParents
    exact createDirsLoop_ok _ hov quiet targets fs replies []

/-- C3 witness: each amended conjunct at a concrete input — a reply of
`"1"` resolving the first device, non-interactive resolution, a
no-prompt filter run, and a directory-creation run with overwrite
`NO`. -/
theorem C3_core_no_uncaught_exceptions_witness :
    (∃ res, findDeviceLocation [(pys "/dev/sda1", pys "/mnt/a")] (pys "/x")
        (pys "/") false false false "1" = .ok res) ∧
    (∃ res, findDeviceLocation [(pys "/dev/sda1", pys "/mnt/a")] (pys "/x")
        (pys "/") true false false "1" = .ok res) ∧
    (∃ out, filterOutExtensions [pys "x.txt"] [pys "d1"]
        (fun _ => YES) true [] = .ok out) ∧
    (∃ res, createDirsAndParents [pys "/a"] (fun _ => NO) false false []
        ⟨[pys "/"], []⟩ = .ok res) :=
  ⟨C3_core_no_uncaught_exceptions.1 [(pys "/dev/sda1", pys "/mnt/a")]
      (pys "/x") (pys "/") false false "1" 1 (by decide) (by decide),
   C3_core_no_uncaught_exceptions.2.1 [(pys "/dev/sda1", pys "/mnt/a")]
      (pys "/x") (pys "/") false false "1",
   C3_core_no_uncaught_exceptions.2.2.1 [pys "x.txt"] [pys "d1"]
      (fun _ => YES) true [] rfl (Or.inl rfl),
   C3_core_no_uncaught_exceptions.2.2.2 [pys "/a"] (fun _ => NO) false false
      [] ⟨[pys "/"], []⟩ (by decide)⟩

end Transfat
